import Mathlib

/-!
# Verification of the release-watcher health-report core

Shallow embedding of `report.go` (and the shared regexes / option plumbing of
the repository) from the `release-watcher` tool, together with proofs about
the claims of its specification.

Modelling conventions:
* Go `time.Time` values are modelled as `Int` unix seconds; `time.Duration`
  values as `Int` seconds.  The fixed parse-zone offset applied by
  `getPayloadTimestamp` shifts every parsed timestamp by one constant amount
  and is absorbed into the universally quantified `now`; comparisons of
  `Duration.Minutes()` (a division of the nanosecond count by a positive
  constant) are modelled as comparisons of the underlying counts, which
  agrees exactly at the equality boundary.
* Go maps are modelled as association lists (`List (String × _)`); a Go map
  never holds a key twice, which surfaces as `Nodup` hypotheses on the key
  list where a theorem needs it.  Iteration order of a Go map is
  unspecified, so theorems state order-independent facts (membership), or
  quantify over permutations where order matters.
* The regexes `zReleaseRegex`, `extractMinorRegex` and `extractDateRegex`
  are specialised matchers translated pattern-by-pattern; the leftmost-match
  search of `FindStringSubmatch` is the position scan, and the greedy digit
  runs coincide with maximal munch because each run is followed by a
  non-digit literal in the pattern.
-/

namespace ReleaseWatcher

/-- Character class `[1-9]` of `zReleaseRegex` and `extractMinorRegex`. -/
def oneNine (c : Char) : Bool := '1' ≤ c && c ≤ '9'

/-- Numeric value of a decimal digit character. -/
def digitVal (c : Char) : Nat := c.toNat - '0'.toNat

/-- Conversion `strconv.Atoi` applied to a captured digit run (always succeeds on a run of `[0-9]+`). -/
def digitsToNat (ds : List Char) : Nat := ds.foldl (fun a c => 10 * a + digitVal c) 0

/-- Attempt to match `zReleaseRegex` = `4\.([1-9][0-9]*)\.0-0\.(ci|nightly)`
at the head of the character list, returning capture group 1 as a number
(the code immediately feeds `matches[1]` to `strconv.Atoi`). -/
def zMatchAt : List Char → Option Nat
  | '4' :: '.' :: c :: rest =>
    if oneNine c then
      let ds := (c :: rest).takeWhile Char.isDigit
      match (c :: rest).dropWhile Char.isDigit with
      | '.' :: '0' :: '-' :: '0' :: '.' :: tail =>
        match tail with
        | 'c' :: 'i' :: _ => some (digitsToNat ds)
        | 'n' :: 'i' :: 'g' :: 'h' :: 't' :: 'l' :: 'y' :: _ => some (digitsToNat ds)
        | _ => none
      | _ => none
    else none
  | _ => none

/-- Leftmost-match scan of `zReleaseRegex.FindStringSubmatch`. -/
def zMatchList : List Char → Option Nat
  | [] => none
  | c :: rest =>
    match zMatchAt (c :: rest) with
    | some v => some v
    | none => zMatchList rest

/-- Model of `zReleaseRegex.FindStringSubmatch` followed by `strconv.Atoi` of capture 1:
`none` models a `nil` match (the stream name is skipped, never an error). -/
def zMatch (s : String) : Option Nat := zMatchList s.data

/-- Attempt to match `extractMinorRegex` = `4\.([1-9][0-9]*)\.[0-9]+` at the
head of the character list, returning capture group 1 as a number. -/
def minorMatchAt : List Char → Option Nat
  | '4' :: '.' :: c :: rest =>
    if oneNine c then
      let ds := (c :: rest).takeWhile Char.isDigit
      match (c :: rest).dropWhile Char.isDigit with
      | '.' :: d :: _ => if d.isDigit then some (digitsToNat ds) else none
      | _ => none
    else none
  | _ => none

/-- Leftmost-match scan of `extractMinorRegex.FindStringSubmatch`. -/
def minorMatchList : List Char → Option Nat
  | [] => none
  | c :: rest =>
    match minorMatchAt (c :: rest) with
    | some v => some v
    | none => minorMatchList rest

/-- Model of `extractMinorRegex.FindStringSubmatch` followed by `strconv.Atoi` of capture 1. -/
def extractMinor (s : String) : Option Nat := minorMatchList s.data

/-- Gregorian leap-year rule used by the Go time package. -/
def isLeap (y : Int) : Bool := y % 4 == 0 && (y % 100 != 0 || y % 400 == 0)

/-- Length of a month, as validated by `time.Parse`. -/
def daysInMonth (y : Int) (m : Nat) : Nat :=
  if m = 2 then (if isLeap y then 29 else 28)
  else if m = 4 ∨ m = 6 ∨ m = 9 ∨ m = 11 then 30
  else 31

/-- Days from the unix epoch to the civil date `y-m-d`
(the standard days-from-civil computation, matching the Go calendar). -/
def daysFromCivil (y : Int) (m d : Nat) : Int :=
  let y' : Int := if m ≤ 2 then y - 1 else y
  let era : Int := (if 0 ≤ y' then y' else y' - 399) / 400
  let yoe : Int := y' - era * 400
  let mp : Int := if 2 < m then (m : Int) - 3 else (m : Int) + 9
  let doy : Int := (153 * mp + 2) / 5 + (d : Int) - 1
  let doe : Int := yoe * 365 + yoe / 4 - yoe / 100 + doy
  era * 146097 + doe - 719468

/-- Unix seconds of the civil datetime (fields already range-checked). -/
def civilSecs (y : Int) (mo d h mi s : Nat) : Int :=
  daysFromCivil y mo d * 86400 + (h : Int) * 3600 + (mi : Int) * 60 + (s : Int)

/-- The zero `time.Time` (January 1, year 1) in unix seconds; initial value
of `newest` in `getEmptyAndStaleStreams`. -/
def zeroTimeSecs : Int := civilSecs 1 1 1 0 0 0

/-- Model of `getPayloadTimestamp`: `extractDateRegex` =
`([0-9]{4})-([0-9]{2})-([0-9]{2})-([0-9]{2})([0-9]{2})([0-9]{2})$` anchored at
the end of the payload name, then `time.Parse("2006-01-02-150405 MST", ...)`,
whose field validation (month, day-of-month, hour, minute, second ranges) is
reproduced here.  `none` models the returned error (recoverable: callers skip
the payload).  The fixed parse zone contributes a constant offset that is
absorbed into `now` (see the file header). -/
def getPayloadTimestamp (payload : String) : Option Int :=
  let cs := payload.data
  if cs.length < 17 then none
  else
    match cs.drop (cs.length - 17) with
    | [y1, y2, y3, y4, '-', m1, m2, '-', d1, d2, '-', h1, h2, n1, n2, s1, s2] =>
      if ([y1, y2, y3, y4, m1, m2, d1, d2, h1, h2, n1, n2, s1, s2].all Char.isDigit) then
        let y : Int := (digitsToNat [y1, y2, y3, y4] : Int)
        let mo := digitsToNat [m1, m2]
        let da := digitsToNat [d1, d2]
        let hh := digitsToNat [h1, h2]
        let mi := digitsToNat [n1, n2]
        let ss := digitsToNat [s1, s2]
        if 1 ≤ mo ∧ mo ≤ 12 ∧ 1 ≤ da ∧ da ≤ daysInMonth y mo ∧ hh ≤ 23 ∧ mi ≤ 59 ∧ ss ≤ 59
        then some (civilSecs y mo da hh mi ss)
        else none
      else none
    | _ => none

/-- One iteration of the per-payload loop of `getEmptyAndStaleStreams`
(report.go:203-219): skip unparsable timestamps, or the `freshPayload` flag
and the `newest` timestamp according to the payload age. -/
def staleStep (now threshold : Int) (acc : Bool × Int) (payload : String) : Bool × Int :=
  match getPayloadTimestamp payload with
  | none => acc
  | some ts =>
    let delta := now - ts
    let fresh := acc.1 || decide (delta < threshold)
    let newest := if acc.2 < ts then ts else acc.2
    (fresh, newest)

/-- Per-payload inner loop of `getEmptyAndStaleStreams` (report.go:201-219):
threads the `freshPayload` flag and the `newest` timestamp through the
payload list. -/
def streamFreshAndNewest (now threshold : Int) (payloads : List String) : Bool × Int :=
  payloads.foldl (staleStep now threshold) (false, zeroTimeSecs)

/-- Specification view of the per-payload freshness test: the payload
timestamp parses and its age is strictly below the threshold. -/
def payloadFresh (now threshold : Int) (p : String) : Bool :=
  match getPayloadTimestamp p with
  | some ts => decide (now - ts < threshold)
  | none => false

/-- The shared in-range z-stream filter of both evaluators
(report.go:182-195 and 312-326): `zReleaseRegex` must match and the parsed
minor must lie in `[oldestMinor, newestMinor]`. -/
def inRangeZ (oldestMinor newestMinor : Int) (stream : String) : Option Nat :=
  match zMatch stream with
  | none => none
  | some v =>
    if (v : Int) < oldestMinor then none
    else if newestMinor < (v : Int) then none
    else some v

/-- Model of `getEmptyAndStaleStreams` (report.go:174-226): returns the set of empty
stream names and the map from stale stream name to its age.  The Go loop
iterates the map keys in unspecified order; the association list order
stands in for one such order, and theorems only use membership. -/
def getEmptyAndStaleStreams (releases : List (String × List String))
    (threshold : Int) (oldestMinor newestMinor : Int) (now : Int) :
    List String × List (String × Int) :=
  match releases with
  | [] => ([], [])
  | (stream, payloads) :: rest =>
    let acc := getEmptyAndStaleStreams rest threshold oldestMinor newestMinor now
    match inRangeZ oldestMinor newestMinor stream with
    | none => acc
    | some _ =>
      if payloads = [] then (stream :: acc.1, acc.2)
      else
        let fn := streamFreshAndNewest now threshold payloads
        if fn.1 then acc
        else (acc.1, (stream, now - fn.2) :: acc.2)

/-- The `found` struct of report.go (source version + age of the upgrade). -/
structure Found where
  version : String
  age : Int
  deriving DecidableEq, Repr

/-- Inner predecessor loop of `checkUpgrades` (report.go:347-375), with the
`break` once both a patch- and a minor-level success are present.  State is
`(foundPatch, foundMinor)`.  Note the source assigns unconditionally — there
is no "only if not already recorded" guard — and the `break` exits only this
loop. -/
def predLoop (toVersion : Nat) (age : Int) :
    List String → Option Found → Option Found → Option Found × Option Found
  | [], foundPatch, foundMinor => (foundPatch, foundMinor)
  | frm :: rest, foundPatch, foundMinor =>
    match extractMinor frm with
    | none => predLoop toVersion age rest foundPatch foundMinor
    | some fromVersion =>
      let foundPatch' := if toVersion = fromVersion then some ⟨frm, age⟩ else foundPatch
      let foundMinor' := if toVersion = fromVersion + 1 then some ⟨frm, age⟩ else foundMinor
      if foundMinor'.isSome && foundPatch'.isSome then (foundPatch', foundMinor')
      else predLoop toVersion age rest foundPatch' foundMinor'

/-- Payload loop of `checkUpgrades` (report.go:331-376): skips payloads with
unparsable timestamps, with `age > threshold` (note: non-strict keep, a
payload exactly at the threshold is still examined), or with no parsable
minor; otherwise runs the predecessor loop on `graph[payload]`.  The inner
`break` of the source does not break this loop, so scanning always continues with the
next payload. -/
def payloadLoop (graph : List (String × List String)) (now threshold : Int) :
    List String → Option Found → Option Found → Option Found × Option Found
  | [], foundPatch, foundMinor => (foundPatch, foundMinor)
  | payload :: rest, foundPatch, foundMinor =>
    match getPayloadTimestamp payload with
    | none => payloadLoop graph now threshold rest foundPatch foundMinor
    | some ts =>
      let age := now - ts
      if threshold < age then payloadLoop graph now threshold rest foundPatch foundMinor
      else
        match extractMinor payload with
        | none => payloadLoop graph now threshold rest foundPatch foundMinor
        | some toVersion =>
          let s := predLoop toVersion age ((graph.lookup payload).getD []) foundPatch foundMinor
          payloadLoop graph now threshold rest s.1 s.2

/-- The `releaseReport` struct: per-stream healthy/unhealthy message lists. -/
structure ReleaseReport where
  healthyMessages : List String
  unhealthyMessages : List String
  deriving DecidableEq, Repr

/-- Day formatting `%0.1f` of the report messages: the age in seconds
rendered as days with one decimal place (rounding to nearest tenth,
half away from zero for the non-negative ages that occur in reports). -/
def formatDays (secs : Int) : String :=
  let tenths := (secs * 20 / 86400 + 1) / 2
  let sign := if tenths < 0 then "-" else ""
  sign ++ toString (tenths.natAbs / 10) ++ "." ++ toString (tenths.natAbs % 10)

/-- Messages emitted per stream by `checkUpgrades` (report.go:378-387) from
the final `(foundPatch, foundMinor)` state. -/
def mkStreamReport (fp fm : Option Found) : ReleaseReport :=
  let hp := match fp with
    | some f => [("Has a recent valid patch level upgrade from " ++ f.version ++ " "
        ++ formatDays f.age ++ " days ago")]
    | none => []
  let up := match fp with
    | some _ => []
    | none => ["Does not have a recent valid patch level upgrade"]
  let hm := match fm with
    | some f => [("Has a recent valid minor level upgrade from " ++ f.version ++ " "
        ++ formatDays f.age ++ " days ago")]
    | none => []
  let um := match fm with
    | some _ => []
    | none => ["Does not have a recent valid minor level upgrade"]
  { healthyMessages := hp ++ hm, unhealthyMessages := up ++ um }

/-- The `report` struct. -/
structure Report where
  streams : List (String × ReleaseReport)
  oldestMinor : Int
  newestMinor : Int
  releaseAPIUrl : String
  deriving DecidableEq, Repr

/-- Model of `checkUpgrades` (report.go:302-390): builds the report skeleton with one
`releaseReport` per in-range z-stream of the release map, carrying the
upgrade healthy/unhealthy messages. -/
def checkUpgrades (graph : List (String × List String))
    (releases : List (String × List String)) (stalenessThreshold : Int)
    (oldestMinor newestMinor : Int) (now : Int) : Report :=
  let streams : List (String × ReleaseReport) :=
    releases.foldr
      (fun entry acc =>
        match inRangeZ oldestMinor newestMinor entry.1 with
        | none => acc
        | some _ =>
          let s := payloadLoop graph now stalenessThreshold entry.2 none none
          (entry.1, mkStreamReport s.1 s.2) :: acc)
      []
  { streams := streams
    oldestMinor := oldestMinor
    newestMinor := newestMinor
    releaseAPIUrl := "" }

/-- The statement `report.streams[stream].unhealthyMessages = append(...)` on the
association-list model: `none` models the nil-pointer dereference that Go
performs when `stream` has no entry in the map. -/
def appendUnhealthy (streams : List (String × ReleaseReport)) (stream msg : String) :
    Option (List (String × ReleaseReport)) :=
  match streams with
  | [] => none
  | (k, rr) :: rest =>
    if k = stream then
      some ((k, { rr with unhealthyMessages := rr.unhealthyMessages ++ [msg] }) :: rest)
    else
      (appendUnhealthy rest stream msg).map (fun l => (k, rr) :: l)

/-- First merge loop of `generateReport` (report.go:73-84): for each stream
with no accepted payloads, flag it when the all-payloads stream is not stale
(first branch) or not empty (second branch).  When a message is appended the
stream entry is dereferenced, which is a nil panic (`none`) if absent. -/
def flagAcceptedEmpty (allStale : List (String × Int)) (allEmpty : List String) :
    List String → List (String × ReleaseReport) → Option (List (String × ReleaseReport))
  | [], streams => some streams
  | stream :: rest, streams =>
    let msg : Option String :=
      if (allStale.lookup stream).isNone then
        some "Has no accepted payloads, but the stream contains recently built payloads"
      else if !(allEmpty.contains stream) then
        some "Has no accepted payloads, but the stream contains built payloads"
      else none
    match msg with
    | none => flagAcceptedEmpty allStale allEmpty rest streams
    | some m =>
      match appendUnhealthy streams stream m with
      | none => none
      | some streams' => flagAcceptedEmpty allStale allEmpty rest streams'

/-- Second merge loop (report.go:85-87): stale-accepted message per stream. -/
def flagAcceptedStale (acceptedStalenessLimit : Int) :
    List (String × Int) → List (String × ReleaseReport) → Option (List (String × ReleaseReport))
  | [], streams => some streams
  | (stream, age) :: rest, streams =>
    match appendUnhealthy streams stream
        ("Most recently accepted payload > " ++ formatDays acceptedStalenessLimit
          ++ " days, last accepted was " ++ formatDays age ++ " days ago") with
    | none => none
    | some streams' => flagAcceptedStale acceptedStalenessLimit rest streams'

/-- Third merge loop (report.go:89-91): no-built-payloads message. -/
def flagAllEmpty :
    List String → List (String × ReleaseReport) → Option (List (String × ReleaseReport))
  | [], streams => some streams
  | stream :: rest, streams =>
    match appendUnhealthy streams stream "Has no built payloads" with
    | none => none
    | some streams' => flagAllEmpty rest streams'

/-- Fourth merge loop (report.go:96-98): very-stale built-payload message. -/
def flagVeryStale :
    List (String × Int) → List (String × ReleaseReport) → Option (List (String × ReleaseReport))
  | [], streams => some streams
  | (stream, age) :: rest, streams =>
    match appendUnhealthy streams stream
        ("Most recently built payload was " ++ formatDays age ++ " days ago") with
    | none => none
    | some streams' => flagVeryStale rest streams'

/-- Outcome of a Go function that can return a value, return an error, or
panic on a nil map entry. -/
inductive GoResult (α : Type) where
  | ok : α → GoResult α
  | err : String → GoResult α
  | nilPanic : GoResult α
  deriving DecidableEq, Repr

/-- Body of `generateReport` after all fetches succeeded (report.go:65-100):
build the skeleton with `checkUpgrades`, set the display URL, run the
staleness evaluator three times, and merge the messages. -/
def generateReportBody (stableGraph acceptedReleases allReleases : List (String × List String))
    (acceptedStalenessLimit builtStalenessLimit upgradeStalenessLimit : Int)
    (oldestMinor newestMinor : Int) (releaseAPIUrl : String) (now : Int) : GoResult Report :=
  let rep0 := checkUpgrades stableGraph allReleases upgradeStalenessLimit oldestMinor newestMinor now
  let rep0 := { rep0 with releaseAPIUrl := releaseAPIUrl }
  let accepted := getEmptyAndStaleStreams acceptedReleases acceptedStalenessLimit oldestMinor newestMinor now
  let allA := getEmptyAndStaleStreams allReleases acceptedStalenessLimit oldestMinor newestMinor now
  match flagAcceptedEmpty allA.2 allA.1 accepted.1 rep0.streams with
  | none => GoResult.nilPanic
  | some s1 =>
    match flagAcceptedStale acceptedStalenessLimit accepted.2 s1 with
    | none => GoResult.nilPanic
    | some s2 =>
      match flagAllEmpty allA.1 s2 with
      | none => GoResult.nilPanic
      | some s3 =>
        let veryStale := (getEmptyAndStaleStreams allReleases builtStalenessLimit oldestMinor newestMinor now).2
        match flagVeryStale veryStale s3 with
        | none => GoResult.nilPanic
        | some s4 => GoResult.ok { rep0 with streams := s4 }

/-- The package-level `releaseAPIUrls` map. -/
def releaseAPIUrls : List (String × String) :=
  [("amd64", "https://amd64.ocp.releases.ci.openshift.org"),
   ("arm64", "https://arm64.ocp.releases.ci.openshift.org"),
   ("multi", "https://multi.ocp.releases.ci.openshift.org"),
   ("ppc64le", "https://ppc64le.ocp.releases.ci.openshift.org"),
   ("s390x", "https://s390x.ocp.releases.ci.openshift.org")]

/-- The external fetches `generateReport` can attempt, in code order. -/
inductive FetchKind where
  | supportedReleases
  | acceptedReleases
  | allReleases
  | upgradeGraph
  deriving DecidableEq, Repr

/-- Results the injected data sources would return if called: the
`getSupportedReleases` range, the two `getReleaseStream` maps, and the
`getUpgradeGraph` predecessor map, each either a value or a fetch/decode
error. -/
structure FetchEnv where
  supported : Except String (Int × Int)
  accepted : Except String (List (String × List String))
  allRel : Except String (List (String × List String))
  graph : Except String (List (String × List String))
  now : Int

/-- The error message of report.go:41 for an invalid resolved range. -/
def invalidRangeMsg (oldestMinor newestMinor : Int) : String :=
  "invalid release range (" ++ toString oldestMinor ++ " -> " ++ toString newestMinor
    ++ "), release versions must be non-negative and newest must be greater than oldest"

/-- Everything `generateReport` does after the bounds block
(report.go:45-100): architecture lookup, the three fetches in code order
(each aborting on error), and the report body.  `trace` is the list of
fetches already attempted. -/
def generateReportFetch (env : FetchEnv)
    (acceptedStalenessLimit builtStalenessLimit upgradeStalenessLimit : Int)
    (oldest newest : Int) (arch : String) (trace : List FetchKind) :
    GoResult Report × List FetchKind :=
  match releaseAPIUrls.lookup arch with
  | none => (GoResult.err ("unknown architecture: " ++ arch), trace)
  | some releaseAPIUrl =>
    match env.accepted with
    | Except.error e => (GoResult.err e, trace ++ [FetchKind.acceptedReleases])
    | Except.ok acceptedReleases =>
      match env.allRel with
      | Except.error e =>
        (GoResult.err e, trace ++ [FetchKind.acceptedReleases, FetchKind.allReleases])
      | Except.ok allReleases =>
        match env.graph with
        | Except.error e =>
          (GoResult.err e,
            trace ++ [FetchKind.acceptedReleases, FetchKind.allReleases, FetchKind.upgradeGraph])
        | Except.ok stableGraph =>
          (generateReportBody stableGraph acceptedReleases allReleases
              acceptedStalenessLimit builtStalenessLimit upgradeStalenessLimit
              oldest newest releaseAPIUrl env.now,
            trace ++ [FetchKind.acceptedReleases, FetchKind.allReleases, FetchKind.upgradeGraph])

/-- Model of `generateReport` (report.go:27-101), with the external sources injected
as `FetchEnv` and the list of attempted fetches returned alongside the
result.  The bounds check sits inside the `oldestMinor == -1 ||
newestMinor == -1` branch, exactly as in the source. -/
def generateReport (env : FetchEnv)
    (acceptedStalenessLimit builtStalenessLimit upgradeStalenessLimit : Int)
    (oldestMinor newestMinor : Int) (arch : String) : GoResult Report × List FetchKind :=
  if oldestMinor = -1 ∨ newestMinor = -1 then
    match env.supported with
    | Except.error e => (GoResult.err e, [FetchKind.supportedReleases])
    | Except.ok (oldestSupportedMinor, newestSupportedMinor) =>
      let oldest := if oldestMinor = -1 then oldestSupportedMinor else oldestMinor
      let newest := if newestMinor = -1 then newestSupportedMinor + 1 else newestMinor
      if oldest < 0 ∨ newest < 0 ∨ newest < oldest then
        (GoResult.err (invalidRangeMsg oldest newest), [FetchKind.supportedReleases])
      else
        generateReportFetch env acceptedStalenessLimit builtStalenessLimit
          upgradeStalenessLimit oldest newest arch [FetchKind.supportedReleases]
  else
    generateReportFetch env acceptedStalenessLimit builtStalenessLimit
      upgradeStalenessLimit oldestMinor newestMinor arch []

/-- Ascending string order of `sort.Strings` (report.go:109). -/
def stringLeRel (a b : String) : Prop := a ≤ b

instance : DecidableRel stringLeRel := fun a b => by
  unfold stringLeRel; infer_instance

/-- The lists `sort.Strings` (report.go:109) can produce from the key slice:
a permutation that is non-decreasing in string order.  String order is total
and antisymmetric, so this outcome is in fact unique (stability is
irrelevant), but the contract form keeps the model honest. -/
def sortStringsOutcome (l out : List String) : Prop :=
  out.Perm l ∧ out.Sorted stringLeRel

/-- Constraint the `sort.Slice` comparator (report.go:110-119) places on a
pair `(a, c)` with `a` placed before `c`: `less(c, a)` must be false, i.e.
the parsed minor of `c` must not exceed that of `a`.  The comparator
dereferences capture 1 of `extractMinorRegex.FindStringSubmatch`, which is a
nil-dereference panic when a name does not match; the relation places no
constraint there and the renderer theorems instead hypothesise that every
name parses (the panic-free domain of the Go method). -/
def minorDescLe (a c : String) : Bool :=
  match extractMinor a, extractMinor c with
  | some va, some vc => decide (vc ≤ va)
  | _, _ => true

/-- The lists the documented-unstable `sort.Slice` (report.go:110-119) can
produce: ANY permutation of the input that is pairwise consistent with the
descending-minor comparator.  The relative order of entries with equal
parsed minors is not determined by this contract (the sort is documented as
not stable). -/
def sortSliceOutcome (l out : List String) : Prop :=
  out.Perm l ∧ out.Pairwise (fun a c => minorDescLe a c = true)

/-- One stream section of the rendered report (report.go:123-145). -/
def streamBlock (streams : List (String × ReleaseReport)) (releaseAPIUrl : String)
    (includeHealthy : Bool) (output : String) (stream : String) : String :=
  let rr := (streams.lookup stream).getD ⟨[], []⟩
  if rr.unhealthyMessages.length = 0 && !includeHealthy then output
  else
    let output := output ++ releaseAPIUrl ++ "/#" ++ stream ++ "\n"
    let unhealthyPrefix := if includeHealthy then "*WARNING:* " else ""
    let output := rr.unhealthyMessages.foldl
      (fun o m => o ++ "  * " ++ unhealthyPrefix ++ m ++ "\n") output
    let output := if includeHealthy then
        rr.healthyMessages.foldl (fun o m => o ++ "  * " ++ m ++ "\n") output
      else output
    output ++ "\n"

/-- Model of the String method of report (report.go:103-151), parameterised
by the stream order the two sort calls produced: `sorted` ranges over
`sortSliceOutcome` applied to a `sortStringsOutcome` of the key slice,
because `sort.Slice` is documented unstable and its exact output is not a
function of the input. -/
def reportStringWith (rep : Report) (includeHealthy : Bool)
    (sorted : List String) : String :=
  let output := sorted.foldl (streamBlock rep.streams rep.releaseAPIUrl includeHealthy) ""
  let output :=
    if !includeHealthy && output.length = 0 then
      output ++ "No unhealthy payload streams detected\n"
    else output
  output ++ "\nIgnored releases older than 4." ++ toString rep.oldestMinor
    ++ ".z and newer than 4." ++ toString rep.newestMinor ++ ".z\n"

/-- Specification view of the empty-stream output of
`getEmptyAndStaleStreams`: the in-range z-streams with an empty payload
list. -/
def emptySpec (o n : Int) (rel : List (String × List String)) : List String :=
  rel.filterMap (fun e => if (inRangeZ o n e.1).isSome ∧ e.2 = [] then some e.1 else none)

/-- Specification view of the stale-stream output of
`getEmptyAndStaleStreams`: the nonempty in-range z-streams with no fresh
payload, paired with the age of their newest payload. -/
def staleSpec (th o n now : Int) (rel : List (String × List String)) : List (String × Int) :=
  rel.filterMap (fun e =>
    if (inRangeZ o n e.1).isSome ∧ e.2 ≠ [] ∧ (streamFreshAndNewest now th e.2).1 = false
    then some (e.1, now - (streamFreshAndNewest now th e.2).2) else none)

/-- Specification view of the skeleton built by `checkUpgrades`: one entry
per in-range z-stream, carrying the messages derived from the payload
loop. -/
def streamsSpec (g : List (String × List String)) (th o n now : Int)
    (rel : List (String × List String)) : List (String × ReleaseReport) :=
  rel.filterMap (fun e =>
    if (inRangeZ o n e.1).isSome then
      some (e.1, mkStreamReport (payloadLoop g now th e.2 none none).1
        (payloadLoop g now th e.2 none none).2)
    else none)

instance : IsTotal String stringLeRel := ⟨fun a b => le_total a b⟩

instance : IsTrans String stringLeRel := ⟨fun _ _ _ => le_trans⟩

instance : IsAntisymm String stringLeRel := ⟨fun _ _ => le_antisymm⟩

/-- Upgrade graph of the short-circuit counterexample: the first payload has
both a patch-level and a minor-level predecessor, the second payload has a
different patch-level predecessor. -/
def cexGraph : List (String × List String) :=
  [("4.12.10-2024-01-02-000000", ["4.12.9", "4.11.3"]),
   ("4.12.11-2024-01-02-010000", ["4.12.5"])]

/-- Observation time used by the concrete counterexamples. -/
def cexNow : Int := civilSecs 2024 1 3 0 0 0

/-- Fetch environment whose sources all succeed with empty data. -/
def envExplicitBounds : FetchEnv :=
  { supported := Except.ok (0, 0)
    accepted := Except.ok []
    allRel := Except.ok []
    graph := Except.ok []
    now := 0 }

/-- Fetch environment where one in-range stream is empty in both the
accepted and the all-payloads release map. -/
def envEmptyBoth : FetchEnv :=
  { supported := Except.ok (0, 0)
    accepted := Except.ok [("4.9.0-0.ci", [])]
    allRel := Except.ok [("4.9.0-0.ci", [])]
    graph := Except.ok []
    now := 0 }


/-- One step of the last-patch-match fold: a patch-level match replaces the
accumulator, mirroring the unconditional assignment in the source. -/
def lastPatchStep (toVersion : Nat) (acc : Option String) (f : String) : Option String :=
  match extractMinor f with
  | some fv => if toVersion = fv then some f else acc
  | none => acc

/-- Specification view of the predecessor scan when no minor-level match
occurs: the LAST patch-level match of the list in iteration order. -/
def lastPatchMatch (toVersion : Nat) (froms : List String) : Option String :=
  froms.foldl (lastPatchStep toVersion) none

/-- A two-stream report used to witness rendering determinism. -/
def repPermA : Report :=
  { streams := [("4.9.0-0.ci", ⟨[], ["stale"]⟩), ("4.12.0-0.ci", ⟨[], []⟩)]
    oldestMinor := 9
    newestMinor := 12
    releaseAPIUrl := "https://amd64.ocp.releases.ci.openshift.org" }

/-- The same report with its stream entries permuted (a different Go map
iteration order). -/
def repPermB : Report :=
  { streams := [("4.12.0-0.ci", ⟨[], []⟩), ("4.9.0-0.ci", ⟨[], ["stale"]⟩)]
    oldestMinor := 9
    newestMinor := 12
    releaseAPIUrl := "https://amd64.ocp.releases.ci.openshift.org" }

/-- A report with two streams of the SAME parsed minor (9): the
descending-minor comparator cannot separate them, so the unstable
slice-sort contract admits either relative order. -/
def repTie : Report :=
  { streams := [("4.9.0-0.ci", ⟨[], ["no accepted"]⟩),
                ("4.9.0-0.nightly", ⟨[], ["no built"]⟩)]
    oldestMinor := 9
    newestMinor := 12
    releaseAPIUrl := "https://amd64.ocp.releases.ci.openshift.org" }

theorem inRangeZ_isSome_iff {o n : Int} {s : String} :
    (inRangeZ o n s).isSome ↔ ∃ v, zMatch s = some v ∧ o ≤ (v : Int) ∧ (v : Int) ≤ n := by
  unfold inRangeZ
  cases hz : zMatch s with
  | none => simp
  | some v =>
    by_cases h1 : (v : Int) < o
    · simp [h1, not_le.mpr h1]
    · by_cases h2 : n < (v : Int)
      · simp [h1, h2, not_le.mpr h2]
      · simp [h1, h2, not_lt.mp h1, not_lt.mp h2]


theorem getEmptyAndStaleStreams_eq (rel : List (String × List String))
    (th o n now : Int) :
    getEmptyAndStaleStreams rel th o n now =
      (emptySpec o n rel, staleSpec th o n now rel) := by
  induction rel with
  | nil => rfl
  | cons e rest ih =>
    obtain ⟨stream, payloads⟩ := e
    simp only [getEmptyAndStaleStreams, ih]
    cases hz : inRangeZ o n stream with
    | none =>
      simp [emptySpec, staleSpec, List.filterMap_cons, hz]
    | some v =>
      by_cases hp : payloads = []
      · subst hp
        simp [emptySpec, staleSpec, List.filterMap_cons, hz]
      · by_cases hf : (streamFreshAndNewest now th payloads).1
        · simp [emptySpec, staleSpec, List.filterMap_cons, hz, hp, hf]
        · simp [emptySpec, staleSpec, List.filterMap_cons, hz, hp, hf]

theorem checkUpgrades_streams_eq (g rel : List (String × List String))
    (th o n now : Int) :
    (checkUpgrades g rel th o n now).streams = streamsSpec g th o n now rel := by
  induction rel with
  | nil => rfl
  | cons e rest ih =>
    obtain ⟨stream, payloads⟩ := e
    simp only [checkUpgrades] at ih ⊢
    cases hz : inRangeZ o n stream with
    | none => simp [streamsSpec, List.filterMap_cons, List.foldr_cons, hz, ih]
    | some v => simp [streamsSpec, List.filterMap_cons, List.foldr_cons, hz, ih]

theorem mem_map_fst_iff {β : Type} {l : List (String × β)} {s : String} :
    s ∈ l.map Prod.fst ↔ ∃ b, (s, b) ∈ l := by
  constructor
  · intro h
    obtain ⟨e, he, heq⟩ := List.mem_map.mp h
    exact ⟨e.2, by rw [← heq]; exact he⟩
  · rintro ⟨b, hb⟩
    exact List.mem_map.mpr ⟨(s, b), hb, rfl⟩

theorem mem_emptySpec_iff {o n : Int} {rel : List (String × List String)} {s : String} :
    s ∈ emptySpec o n rel ↔ (s, ([] : List String)) ∈ rel ∧ (inRangeZ o n s).isSome := by
  unfold emptySpec
  rw [List.mem_filterMap]
  constructor
  · rintro ⟨e, he, hf⟩
    by_cases hc : (inRangeZ o n e.1).isSome ∧ e.2 = []
    · rw [if_pos hc] at hf
      obtain ⟨rfl⟩ := Option.some_inj.mp hf
      obtain ⟨h1, h2⟩ := hc
      refine ⟨?_, h1⟩
      have : e = (e.1, []) := by
        rw [Prod.ext_iff]
        exact ⟨rfl, h2⟩
      rw [← this]
      exact he
    · rw [if_neg hc] at hf
      cases hf
  · rintro ⟨hm, hr⟩
    exact ⟨(s, []), hm, by rw [if_pos ⟨hr, rfl⟩]⟩

theorem mem_staleSpec_iff {th o n now : Int} {rel : List (String × List String)}
    {s : String} {a : Int} :
    (s, a) ∈ staleSpec th o n now rel ↔
      ∃ ps, (s, ps) ∈ rel ∧ (inRangeZ o n s).isSome ∧ ps ≠ [] ∧
        (streamFreshAndNewest now th ps).1 = false ∧
        a = now - (streamFreshAndNewest now th ps).2 := by
  unfold staleSpec
  rw [List.mem_filterMap]
  constructor
  · rintro ⟨e, he, hf⟩
    by_cases hc : (inRangeZ o n e.1).isSome ∧ e.2 ≠ [] ∧ (streamFreshAndNewest now th e.2).1 = false
    · rw [if_pos hc] at hf
      obtain ⟨h1, h2⟩ := Prod.mk.injEq .. ▸ Option.some_inj.mp hf
      obtain ⟨hc1, hc2, hc3⟩ := hc
      refine ⟨e.2, ?_, h1 ▸ hc1, hc2, hc3, h2.symm⟩
      rw [← h1]
      exact (Prod.mk.eta (p := e)) ▸ he
    · rw [if_neg hc] at hf
      cases hf
  · rintro ⟨ps, hm, hr, hne, hfr, ha⟩
    refine ⟨(s, ps), hm, ?_⟩
    rw [if_pos ⟨hr, hne, hfr⟩, ha]

theorem mem_staleSpecKeys_iff {th o n now : Int} {rel : List (String × List String)}
    {s : String} :
    s ∈ (staleSpec th o n now rel).map Prod.fst ↔
      ∃ ps, (s, ps) ∈ rel ∧ (inRangeZ o n s).isSome ∧ ps ≠ [] ∧
        (streamFreshAndNewest now th ps).1 = false := by
  rw [mem_map_fst_iff]
  constructor
  · rintro ⟨a, ha⟩
    obtain ⟨ps, h⟩ := mem_staleSpec_iff.mp ha
    exact ⟨ps, h.1, h.2.1, h.2.2.1, h.2.2.2.1⟩
  · rintro ⟨ps, hm, hr, hne, hfr⟩
    exact ⟨now - (streamFreshAndNewest now th ps).2,
      mem_staleSpec_iff.mpr ⟨ps, hm, hr, hne, hfr, rfl⟩⟩

theorem mem_streamsSpec_iff {g : List (String × List String)} {th o n now : Int}
    {rel : List (String × List String)} {s : String} {rr : ReleaseReport} :
    (s, rr) ∈ streamsSpec g th o n now rel ↔
      ∃ ps, (s, ps) ∈ rel ∧ (inRangeZ o n s).isSome ∧
        rr = mkStreamReport (payloadLoop g now th ps none none).1
          (payloadLoop g now th ps none none).2 := by
  unfold streamsSpec
  rw [List.mem_filterMap]
  constructor
  · rintro ⟨e, he, hf⟩
    by_cases hc : (inRangeZ o n e.1).isSome
    · rw [if_pos hc] at hf
      obtain ⟨h1, h2⟩ := Prod.mk.injEq .. ▸ Option.some_inj.mp hf
      refine ⟨e.2, ?_, h1 ▸ hc, h2.symm⟩
      rw [← h1]
      exact (Prod.mk.eta (p := e)) ▸ he
    · rw [if_neg hc] at hf
      cases hf
  · rintro ⟨ps, hm, hr, hrr⟩
    refine ⟨(s, ps), hm, ?_⟩
    rw [if_pos hr, hrr]

theorem mem_streamsSpecKeys_iff {g : List (String × List String)} {th o n now : Int}
    {rel : List (String × List String)} {s : String} :
    s ∈ (streamsSpec g th o n now rel).map Prod.fst ↔
      ∃ ps, (s, ps) ∈ rel ∧ (inRangeZ o n s).isSome := by
  rw [mem_map_fst_iff]
  constructor
  · rintro ⟨rr, hrr⟩
    obtain ⟨ps, h⟩ := mem_streamsSpec_iff.mp hrr
    exact ⟨ps, h.1, h.2.1⟩
  · rintro ⟨ps, hm, hr⟩
    exact ⟨_, mem_streamsSpec_iff.mpr ⟨ps, hm, hr, rfl⟩⟩


theorem foldl_staleStep_fst (now th : Int) (l : List String) : ∀ (b : Bool) (w : Int),
    (l.foldl (staleStep now th) (b, w)).1 = (b || l.any (payloadFresh now th)) := by
  induction l with
  | nil =>
    intro b w
    simp
  | cons p rest ih =>
    intro b w
    cases hp : getPayloadTimestamp p with
    | none => simp [staleStep, payloadFresh, hp, ih]
    | some ts => simp [staleStep, payloadFresh, hp, ih, Bool.or_assoc]

theorem streamFreshAndNewest_fst (now th : Int) (ps : List String) :
    (streamFreshAndNewest now th ps).1 = ps.any (payloadFresh now th) := by
  unfold streamFreshAndNewest
  rw [foldl_staleStep_fst]
  simp

theorem keyNodup_eq {β : Type} {l : List (String × β)} (h : (l.map Prod.fst).Nodup)
    {s : String} {a b : β} (ha : (s, a) ∈ l) (hb : (s, b) ∈ l) : a = b := by
  induction l with
  | nil => cases ha
  | cons e rest ih =>
    rw [List.map_cons, List.nodup_cons] at h
    rcases List.mem_cons.mp ha with ha1 | ha1 <;> rcases List.mem_cons.mp hb with hb1 | hb1
    · rw [← ha1] at hb1
      exact (((Prod.mk.injEq .. ).mp hb1).2).symm
    · exfalso
      apply h.1
      rw [← ha1]
      exact mem_map_fst_iff.mpr ⟨b, hb1⟩
    · exfalso
      apply h.1
      rw [← hb1]
      exact mem_map_fst_iff.mpr ⟨a, ha1⟩
    · exact ih h.2 ha1 hb1

theorem lookup_eq_of_perm {β : Type} {l1 l2 : List (String × β)} (p : l1.Perm l2) :
    (l1.map Prod.fst).Nodup → ∀ s, l1.lookup s = l2.lookup s := by
  induction p with
  | nil =>
    intro _ s
    rfl
  | cons x p ih =>
    intro h s
    obtain ⟨k, v⟩ := x
    rw [List.map_cons, List.nodup_cons] at h
    simp only [List.lookup]
    cases hsk : s == k with
    | true => rfl
    | false => exact ih h.2 s
  | swap x y l =>
    intro h s
    obtain ⟨k1, v1⟩ := y
    obtain ⟨k2, v2⟩ := x
    rw [List.map_cons, List.map_cons, List.nodup_cons, List.nodup_cons] at h
    simp only [List.lookup]
    cases hs1 : s == k1 with
    | true =>
      cases hs2 : s == k2 with
      | true =>
        exfalso
        apply h.1
        rw [List.mem_cons]
        exact Or.inl (by rw [← eq_of_beq hs1, ← eq_of_beq hs2])
      | false => rfl
    | false =>
      cases hs2 : s == k2 with
      | true => rfl
      | false => rfl
  | trans p1 p2 ih1 ih2 =>
    intro h s
    have h2 := (p1.map Prod.fst).nodup h
    rw [ih1 h s, ih2 h2 s]


theorem appendUnhealthy_isSome {streams : List (String × ReleaseReport)} {s : String}
    (m : String) (h : s ∈ streams.map Prod.fst) : (appendUnhealthy streams s m).isSome := by
  induction streams with
  | nil => simp at h
  | cons e rest ih =>
    obtain ⟨k, rr⟩ := e
    by_cases hk : k = s
    · simp [appendUnhealthy, hk]
    · rw [List.map_cons, List.mem_cons] at h
      rcases h with h | h
      · exact absurd h.symm hk
      · rw [appendUnhealthy, if_neg hk]
        cases hrec : appendUnhealthy rest s m with
        | none =>
          exfalso
          have h2 := ih h
          rw [hrec] at h2
          cases h2
        | some l2 =>
          rfl

theorem appendUnhealthy_keys {streams : List (String × ReleaseReport)} {s m : String} :
    ∀ {l'}, appendUnhealthy streams s m = some l' →
      l'.map Prod.fst = streams.map Prod.fst := by
  induction streams with
  | nil =>
    intro l' h
    cases h
  | cons e rest ih =>
    intro l' h
    obtain ⟨k, rr⟩ := e
    by_cases hk : k = s
    · rw [appendUnhealthy, if_pos hk] at h
      obtain rfl := Option.some_inj.mp h
      simp
    · rw [appendUnhealthy, if_neg hk] at h
      cases hrec : appendUnhealthy rest s m with
      | none =>
        rw [hrec] at h
        cases h
      | some l2 =>
        rw [hrec] at h
        have h3 : (k, rr) :: l2 = l' := Option.some_inj.mp h
        rw [← h3]
        simp only [List.map_cons]
        rw [ih hrec]

theorem flagAcceptedEmpty_some (allStale : List (String × Int)) (allEmpty : List String) :
    ∀ (todo : List String) (streams : List (String × ReleaseReport)),
      (∀ s ∈ todo, s ∈ streams.map Prod.fst) →
      ∃ l', flagAcceptedEmpty allStale allEmpty todo streams = some l' ∧
        l'.map Prod.fst = streams.map Prod.fst := by
  intro todo
  induction todo with
  | nil =>
    intro streams _
    exact ⟨streams, rfl, rfl⟩
  | cons s rest ih =>
    intro streams h
    have hs : s ∈ streams.map Prod.fst := h s (List.mem_cons_self s rest)
    have hrest : ∀ x ∈ rest, x ∈ streams.map Prod.fst :=
      fun x hx => h x (List.mem_cons_of_mem _ hx)
    by_cases h1 : (allStale.lookup s).isNone
    · obtain ⟨l1, hl1⟩ := Option.isSome_iff_exists.mp
        (appendUnhealthy_isSome "Has no accepted payloads, but the stream contains recently built payloads" hs)
      have hk1 := appendUnhealthy_keys hl1
      obtain ⟨l', hl', hk'⟩ := ih l1 (fun x hx => hk1 ▸ hrest x hx)
      refine ⟨l', ?_, hk'.trans hk1⟩
      rw [flagAcceptedEmpty, if_pos h1]
      simp only [hl1]
      exact hl'
    · by_cases h2 : allEmpty.contains s
      · obtain ⟨l', hl', hk'⟩ := ih streams hrest
        refine ⟨l', ?_, hk'⟩
        rw [flagAcceptedEmpty, if_neg h1]
        have hcond : ¬((!allEmpty.contains s) = true) := by
          rw [h2]
          decide
        rw [if_neg hcond]
        exact hl'
      · obtain ⟨l1, hl1⟩ := Option.isSome_iff_exists.mp
          (appendUnhealthy_isSome "Has no accepted payloads, but the stream contains built payloads" hs)
        have hk1 := appendUnhealthy_keys hl1
        obtain ⟨l', hl', hk'⟩ := ih l1 (fun x hx => hk1 ▸ hrest x hx)
        refine ⟨l', ?_, hk'.trans hk1⟩
        rw [flagAcceptedEmpty, if_neg h1]
        have h2f : allEmpty.contains s = false := by
          revert h2
          cases allEmpty.contains s <;> simp
        have hcond : (!allEmpty.contains s) = true := by
          rw [h2f]
          rfl
        rw [if_pos hcond]
        simp only [hl1]
        exact hl'

theorem flagAcceptedStale_some (limit : Int) :
    ∀ (todo : List (String × Int)) (streams : List (String × ReleaseReport)),
      (∀ e ∈ todo, e.1 ∈ streams.map Prod.fst) →
      ∃ l', flagAcceptedStale limit todo streams = some l' ∧
        l'.map Prod.fst = streams.map Prod.fst := by
  intro todo
  induction todo with
  | nil =>
    intro streams _
    exact ⟨streams, rfl, rfl⟩
  | cons e rest ih =>
    intro streams h
    obtain ⟨s, age⟩ := e
    have hs : s ∈ streams.map Prod.fst := h (s, age) (List.mem_cons_self _ rest)
    obtain ⟨l1, hl1⟩ := Option.isSome_iff_exists.mp
      (appendUnhealthy_isSome ("Most recently accepted payload > " ++ formatDays limit
        ++ " days, last accepted was " ++ formatDays age ++ " days ago") hs)
    have hk1 := appendUnhealthy_keys hl1
    obtain ⟨l', hl', hk'⟩ := ih l1 (fun x hx => hk1 ▸ h x (List.mem_cons_of_mem _ hx))
    refine ⟨l', ?_, hk'.trans hk1⟩
    rw [flagAcceptedStale]
    simp only [hl1]
    exact hl'

theorem flagAllEmpty_some :
    ∀ (todo : List String) (streams : List (String × ReleaseReport)),
      (∀ s ∈ todo, s ∈ streams.map Prod.fst) →
      ∃ l', flagAllEmpty todo streams = some l' ∧
        l'.map Prod.fst = streams.map Prod.fst := by
  intro todo
  induction todo with
  | nil =>
    intro streams _
    exact ⟨streams, rfl, rfl⟩
  | cons s rest ih =>
    intro streams h
    have hs : s ∈ streams.map Prod.fst := h s (List.mem_cons_self s rest)
    obtain ⟨l1, hl1⟩ := Option.isSome_iff_exists.mp
      (appendUnhealthy_isSome "Has no built payloads" hs)
    have hk1 := appendUnhealthy_keys hl1
    obtain ⟨l', hl', hk'⟩ := ih l1 (fun x hx => hk1 ▸ h x (List.mem_cons_of_mem _ hx))
    refine ⟨l', ?_, hk'.trans hk1⟩
    rw [flagAllEmpty]
    simp only [hl1]
    exact hl'

theorem flagVeryStale_some :
    ∀ (todo : List (String × Int)) (streams : List (String × ReleaseReport)),
      (∀ e ∈ todo, e.1 ∈ streams.map Prod.fst) →
      ∃ l', flagVeryStale todo streams = some l' ∧
        l'.map Prod.fst = streams.map Prod.fst := by
  intro todo
  induction todo with
  | nil =>
    intro streams _
    exact ⟨streams, rfl, rfl⟩
  | cons e rest ih =>
    intro streams h
    obtain ⟨s, age⟩ := e
    have hs : s ∈ streams.map Prod.fst := h (s, age) (List.mem_cons_self _ rest)
    obtain ⟨l1, hl1⟩ := Option.isSome_iff_exists.mp
      (appendUnhealthy_isSome ("Most recently built payload was " ++ formatDays age
        ++ " days ago") hs)
    have hk1 := appendUnhealthy_keys hl1
    obtain ⟨l', hl', hk'⟩ := ih l1 (fun x hx => hk1 ▸ h x (List.mem_cons_of_mem _ hx))
    refine ⟨l', ?_, hk'.trans hk1⟩
    rw [flagVeryStale]
    simp only [hl1]
    exact hl'


/-- C1 (code_bug): in `checkUpgrades`, once both a patch-level and a
minor-level success are recorded, scanning does NOT stop: the `break` exits
only the predecessor loop, the payload loop continues, and a later payload
overwrites the recorded `(version, age)` pair.  After the first payload both
successes are `4.12.9`/`4.11.3` (age 86400), yet processing the remaining
payload changes the patch record to `4.12.5` (age 82800), which is what the
stream report carries — contradicting the comment in the source that no
further payloads need checking. -/
theorem checkUpgrades_keeps_scanning_after_both_successes :
    payloadLoop cexGraph cexNow 259200
        ["4.12.10-2024-01-02-000000"] none none =
      (some ⟨"4.12.9", 86400⟩, some ⟨"4.11.3", 86400⟩)
    ∧ payloadLoop cexGraph cexNow 259200
        ["4.12.10-2024-01-02-000000", "4.12.11-2024-01-02-010000"] none none =
      (some ⟨"4.12.5", 82800⟩, some ⟨"4.11.3", 86400⟩)
    ∧ (checkUpgrades cexGraph
        [("4.12.0-0.ci", ["4.12.10-2024-01-02-000000", "4.12.11-2024-01-02-010000"])]
        259200 9 12 cexNow).streams =
      [("4.12.0-0.ci", mkStreamReport (some ⟨"4.12.5", 82800⟩) (some ⟨"4.11.3", 86400⟩))]
    ∧ (some (⟨"4.12.5", 82800⟩ : Found) ≠ some (⟨"4.12.9", 86400⟩ : Found)) := by
  refine ⟨by decide, by decide, by decide, by decide⟩

/-- C3 (code_bug): for a stream that is empty under both the
accepted-payload and the all-payloads evaluation, the report builder still
appends "Has no accepted payloads, but the stream contains recently built
payloads" (the stream, being empty, is absent from the all-stale map, so the
first branch fires) — contradicting the comment in the source that an
empty-overall stream is only flagged further below. -/
theorem generateReport_empty_both_appends_recently_built_message :
    (generateReport envEmptyBoth 86400 259200 259200 9 12 "amd64").1 =
      GoResult.ok
        { streams := [("4.9.0-0.ci",
            { healthyMessages := [],
              unhealthyMessages :=
                ["Does not have a recent valid patch level upgrade",
                 "Does not have a recent valid minor level upgrade",
                 "Has no accepted payloads, but the stream contains recently built payloads",
                 "Has no built payloads"] })],
          oldestMinor := 9
          newestMinor := 12
          releaseAPIUrl := "https://amd64.ocp.releases.ci.openshift.org" } := by
  decide

/-- C4 (counterexample): a second patch-level predecessor overwrites the
already-recorded first one — the source records matches unconditionally, so
the first match does not win. -/
theorem predLoop_overwrites_recorded_patch :
    predLoop 12 100 ["4.12.9", "4.12.5"] none none = (some ⟨"4.12.5", 100⟩, none)
    ∧ (some (⟨"4.12.5", 100⟩ : Found) ≠ some (⟨"4.12.9", 100⟩ : Found)) := by
  refine ⟨by decide, by decide⟩

/-- C5 (counterexample): a payload whose age equals the staleness threshold
is stale for the staleness evaluator (first conjunct) but is NOT skipped by
the upgrade evaluator, which still records its predecessor upgrade (second
conjunct) — the skip test is the non-strict `age > threshold`, not the
strict freshness rule. -/
theorem upgradeEvaluator_keeps_exact_threshold_payload :
    (streamFreshAndNewest (civilSecs 2024 1 1 0 0 0 + 259200) 259200
        ["4.12.10-2024-01-01-000000"]).1 = false
    ∧ payloadLoop [("4.12.10-2024-01-01-000000", ["4.12.9"])]
        (civilSecs 2024 1 1 0 0 0 + 259200) 259200
        ["4.12.10-2024-01-01-000000"] none none =
      (some ⟨"4.12.9", 259200⟩, none)
    ∧ (some (⟨"4.12.9", 259200⟩ : Found) ≠ (none : Option Found)) := by
  refine ⟨by decide, by decide, by decide⟩

/-- C6 (counterexample): the z-stream pattern `4\.([1-9][0-9]*)\.0-0\.(ci|nightly)`
rejects minor 0 and digit strings with leading zeros, so not every
`4.<digits>.0-0.(ci|nightly)` name is accepted. -/
theorem zMatch_rejects_minor_zero_and_leading_zero :
    zMatch "4.0.0-0.ci" = none ∧ zMatch "4.09.0-0.nightly" = none := by
  refine ⟨by decide, by decide⟩

/-- C2 (counterexample): with both bounds explicit and contradictory
(oldest 12 > newest 9), `generateReport` performs no range validation: it
returns a successful (empty) report, and the three data fetches are all
attempted — no configuration error is produced before (or instead of) the
fetches. -/
theorem generateReport_contradictory_explicit_bounds_not_rejected :
    (generateReport envExplicitBounds 86400 259200 259200 12 9 "amd64").1 =
      GoResult.ok
        { streams := []
          oldestMinor := 12
          newestMinor := 9
          releaseAPIUrl := "https://amd64.ocp.releases.ci.openshift.org" }
    ∧ (generateReport envExplicitBounds 86400 259200 259200 12 9 "amd64").2 =
      [FetchKind.acceptedReleases, FetchKind.allReleases, FetchKind.upgradeGraph] := by
  refine ⟨by decide, by decide⟩


theorem predLoop_no_minor_aux (tv : Nat) (age : Int) :
    ∀ (froms : List String) (fp0 : Option Found) (a : Option String),
      (∀ f ∈ froms, ∀ fv, extractMinor f = some fv → tv ≠ fv + 1) →
      predLoop tv age froms
          (match a with | some f => some ⟨f, age⟩ | none => fp0) none =
        (match froms.foldl (lastPatchStep tv) a with
          | some f => some ⟨f, age⟩
          | none => fp0, none) := by
  intro froms
  induction froms with
  | nil =>
    intro fp0 a _
    cases a <;> rfl
  | cons f rest ih =>
    intro fp0 a hnm
    have hnmf := hnm f (List.mem_cons_self f rest)
    have hnmr : ∀ g ∈ rest, ∀ fv, extractMinor g = some fv → tv ≠ fv + 1 :=
      fun g hg => hnm g (List.mem_cons_of_mem _ hg)
    cases hm : extractMinor f with
    | none =>
      rw [predLoop]
      rw [hm]
      rw [List.foldl_cons]
      have hstep : lastPatchStep tv a f = a := by
        simp [lastPatchStep, hm]
      rw [hstep]
      exact ih fp0 a hnmr
    | some fv =>
      rw [predLoop]
      rw [hm]
      have hfm : (if tv = fv + 1 then some (⟨f, age⟩ : Found) else none) = none := by
        rw [if_neg (hnmf fv hm)]
      rw [List.foldl_cons]
      by_cases hp : tv = fv
      · have hstep : lastPatchStep tv a f = some f := by
          simp [lastPatchStep, hm, hp]
        rw [hstep]
        simp only [if_pos hp, hfm, Option.isSome_none, Bool.and_false, Bool.false_and]
        have h2 := ih fp0 (some f) hnmr
        simp only at h2
        rw [if_neg (by simp)]
        exact h2
      · have hstep : lastPatchStep tv a f = a := by
          simp [lastPatchStep, hm, hp]
        rw [hstep]
        simp only [if_neg hp, hfm]
        rw [if_neg (by simp)]
        exact ih fp0 a hnmr

/-- C4 (amended): the first match does NOT win — each patch-level match is
recorded unconditionally, overwriting both an earlier match and any
already-set initial value, so in the absence of minor-level matches (which
would trigger the both-found break) the recorded patch success is the LAST
patch-level match of the predecessor list, regardless of the initial state. -/
theorem predLoop_last_patch_match_wins (tv : Nat) (age : Int) (froms : List String)
    (fp0 : Option Found)
    (hnm : ∀ f ∈ froms, ∀ fv, extractMinor f = some fv → tv ≠ fv + 1) :
    predLoop tv age froms fp0 none =
      (match lastPatchMatch tv froms with
        | some f => some ⟨f, age⟩
        | none => fp0, none) := by
  have h := predLoop_no_minor_aux tv age froms fp0 none hnm
  simpa [lastPatchMatch] using h

/-- C4 witness: the general last-match-wins theorem evaluated on the
concrete two-predecessor list, with an already-set initial value that is
overwritten. -/
theorem predLoop_last_patch_match_wins_witness :
    (∀ f ∈ ["4.12.9", "4.12.5"], ∀ fv, extractMinor f = some fv → 12 ≠ fv + 1)
    ∧ predLoop 12 100 ["4.12.9", "4.12.5"] (some ⟨"4.10.7", 55⟩) none =
      (match lastPatchMatch 12 ["4.12.9", "4.12.5"] with
        | some f => some ⟨f, 100⟩
        | none => some ⟨"4.10.7", 55⟩, none) :=
  ⟨by decide, predLoop_last_patch_match_wins 12 100 ["4.12.9", "4.12.5"]
    (some ⟨"4.10.7", 55⟩) (by decide)⟩


/-- C5 (amended): a payload whose age equals the threshold is not fresh for
the staleness evaluator (strict `age < threshold` rule), but the upgrade
evaluator does NOT apply the same strict rule: its skip test is
`age > threshold`, so an exactly-at-threshold payload is still examined and
its predecessor scan runs. -/
theorem exact_threshold_stale_but_examined (p : String) (ts now th : Int)
    (hts : getPayloadTimestamp p = some ts) (hage : now - ts = th) :
    payloadFresh now th p = false
    ∧ (streamFreshAndNewest now th [p]).1 = false
    ∧ ∀ (g : List (String × List String)) (tv : Nat) (fp fm : Option Found),
        extractMinor p = some tv →
        payloadLoop g now th [p] fp fm =
          predLoop tv (now - ts) ((g.lookup p).getD []) fp fm := by
  have hfresh : payloadFresh now th p = false := by
    simp [payloadFresh, hts, hage]
  refine ⟨hfresh, ?_, ?_⟩
  · rw [streamFreshAndNewest_fst]
    simp [hfresh]
  · intro g tv fp fm hminor
    simp only [payloadLoop, hts, hminor]
    rw [hage]
    simp [lt_irrefl]

/-- C5 witness: the amended boundary theorem evaluated at a concrete payload
aged exactly 72 hours. -/
theorem exact_threshold_stale_but_examined_witness :
    (getPayloadTimestamp "4.12.10-2024-01-01-000000" = some (civilSecs 2024 1 1 0 0 0)
      ∧ (civilSecs 2024 1 1 0 0 0 + 259200) - civilSecs 2024 1 1 0 0 0 = 259200)
    ∧ (payloadFresh (civilSecs 2024 1 1 0 0 0 + 259200) 259200 "4.12.10-2024-01-01-000000" = false
      ∧ (streamFreshAndNewest (civilSecs 2024 1 1 0 0 0 + 259200) 259200
          ["4.12.10-2024-01-01-000000"]).1 = false
      ∧ ∀ (g : List (String × List String)) (tv : Nat) (fp fm : Option Found),
          extractMinor "4.12.10-2024-01-01-000000" = some tv →
          payloadLoop g (civilSecs 2024 1 1 0 0 0 + 259200) 259200
              ["4.12.10-2024-01-01-000000"] fp fm =
            predLoop tv ((civilSecs 2024 1 1 0 0 0 + 259200) - civilSecs 2024 1 1 0 0 0)
              ((g.lookup "4.12.10-2024-01-01-000000").getD []) fp fm) :=
  ⟨⟨by decide, by decide⟩,
    exact_threshold_stale_but_examined "4.12.10-2024-01-01-000000"
      (civilSecs 2024 1 1 0 0 0) (civilSecs 2024 1 1 0 0 0 + 259200) 259200
      (by decide) (by decide)⟩


theorem oneNine_isDigit {c : Char} (h : oneNine c = true) : c.isDigit = true := by
  unfold oneNine at h
  rw [Bool.and_eq_true, decide_eq_true_eq, decide_eq_true_eq] at h
  have h1 : ('1' : Char).val ≤ c.val := h.1
  have h2 : c.val ≤ ('9' : Char).val := h.2
  rw [UInt32.le_def, BitVec.le_def] at h1 h2
  unfold Char.isDigit
  rw [Bool.and_eq_true, decide_eq_true_eq, decide_eq_true_eq]
  have g1 : (48 : UInt32) ≤ c.val := by
    rw [UInt32.le_def, BitVec.le_def]
    have h49 : (('1' : Char).val.toBitVec).toNat = 49 := by decide
    have h48 : ((48 : UInt32).toBitVec).toNat = 48 := by decide
    omega
  have g2 : c.val ≤ (57 : UInt32) := by
    rw [UInt32.le_def, BitVec.le_def]
    have h57a : (('9' : Char).val.toBitVec).toNat = 57 := by decide
    have h57b : ((57 : UInt32).toBitVec).toNat = 57 := by decide
    omega
  exact ⟨g1, g2⟩

theorem takeWhile_digits_dot (ds : List Char) (tail : List Char)
    (h : ∀ d ∈ ds, d.isDigit = true) :
    ((ds ++ '.' :: tail).takeWhile Char.isDigit = ds)
    ∧ ((ds ++ '.' :: tail).dropWhile Char.isDigit = '.' :: tail) := by
  induction ds with
  | nil =>
    rw [List.nil_append]
    constructor
    · rw [List.takeWhile_cons]
      rw [if_neg (by decide)]
    · rw [List.dropWhile_cons]
      rw [if_neg (by decide)]
  | cons d ds ih =>
    have hd : d.isDigit = true := h d (List.mem_cons_self _ _)
    have hds := ih (fun x hx => h x (List.mem_cons_of_mem _ hx))
    rw [List.cons_append]
    constructor
    · rw [List.takeWhile_cons, if_pos hd, hds.1]
    · rw [List.dropWhile_cons, if_pos hd, hds.2]

/-- C6 (amended): the z-stream parser accepts exactly the names carrying the
pattern with a POSITIVE minor written without leading zeros: for any digit
run starting with a `[1-9]` character, both the `ci` and the `nightly` forms
parse to that minor (and unparsable names simply yield `none`, never an
error — the parser is a total function into `Option`).  Minor `0` and
leading-zero runs are rejected, as the counterexample shows. -/
theorem zMatch_accepts_positive_minor_names (c : Char) (ds : List Char)
    (hc : oneNine c = true) (hds : ∀ d ∈ ds, d.isDigit = true) :
    zMatch (String.mk ('4' :: '.' :: c :: (ds ++ ['.', '0', '-', '0', '.', 'c', 'i'])))
        = some (digitsToNat (c :: ds))
    ∧ zMatch (String.mk ('4' :: '.' :: c :: (ds ++ ['.', '0', '-', '0', '.', 'n', 'i', 'g', 'h', 't', 'l', 'y'])))
        = some (digitsToNat (c :: ds)) := by
  have hdig : c.isDigit = true := oneNine_isDigit hc
  constructor
  · show zMatchList ('4' :: '.' :: c :: (ds ++ ['.', '0', '-', '0', '.', 'c', 'i'])) = _
    have htw := takeWhile_digits_dot ds ('0' :: '-' :: '0' :: '.' :: 'c' :: 'i' :: []) hds
    have hat : zMatchAt ('4' :: '.' :: c :: (ds ++ ['.', '0', '-', '0', '.', 'c', 'i']))
        = some (digitsToNat (c :: ds)) := by
      simp only [zMatchAt, if_pos hc]
      rw [List.takeWhile_cons, if_pos hdig]
      rw [List.dropWhile_cons, if_pos hdig]
      rw [htw.1, htw.2]
      rfl
    rw [zMatchList, hat]
  · show zMatchList ('4' :: '.' :: c :: (ds ++ ['.', '0', '-', '0', '.', 'n', 'i', 'g', 'h', 't', 'l', 'y'])) = some (digitsToNat (c :: ds))
    have htw := takeWhile_digits_dot ds ('0' :: '-' :: '0' :: '.' :: 'n' :: 'i' :: 'g' :: 'h' :: 't' :: 'l' :: 'y' :: []) hds
    have hat : zMatchAt ('4' :: '.' :: c :: (ds ++ ['.', '0', '-', '0', '.', 'n', 'i', 'g', 'h', 't', 'l', 'y']))
        = some (digitsToNat (c :: ds)) := by
      simp only [zMatchAt, if_pos hc]
      rw [List.takeWhile_cons, if_pos hdig]
      rw [List.dropWhile_cons, if_pos hdig]
      rw [htw.1, htw.2]
      rfl
    rw [zMatchList, hat]

/-- C6 witness: the amended acceptance theorem evaluated on `4.13.0-0.ci`
and `4.13.0-0.nightly` (minor 13). -/
theorem zMatch_accepts_positive_minor_names_witness :
    (oneNine '1' = true ∧ ∀ d ∈ ['3'], d.isDigit = true)
    ∧ (zMatch (String.mk ('4' :: '.' :: '1' :: (['3'] ++ ['.', '0', '-', '0', '.', 'c', 'i'])))
        = some (digitsToNat ['1', '3'])
      ∧ zMatch (String.mk ('4' :: '.' :: '1' :: (['3'] ++ ['.', '0', '-', '0', '.', 'n', 'i', 'g', 'h', 't', 'l', 'y'])))
        = some (digitsToNat ['1', '3'])) :=
  ⟨⟨by decide, by decide⟩,
    zMatch_accepts_positive_minor_names '1' ['3'] (by decide) (by decide)⟩


theorem supported_not_mem_fetchTrace (env : FetchEnv) (aL bL uL o n : Int)
    (arch : String) (trace : List FetchKind)
    (h : FetchKind.supportedReleases ∉ trace) :
    FetchKind.supportedReleases ∉ (generateReportFetch env aL bL uL o n arch trace).2 := by
  unfold generateReportFetch
  cases releaseAPIUrls.lookup arch with
  | none => exact h
  | some url =>
    cases env.accepted with
    | error e =>
      intro hmem
      rcases List.mem_append.mp hmem with hmem | hmem
      · exact h hmem
      · simp at hmem
    | ok acc =>
      cases env.allRel with
      | error e =>
        intro hmem
        rcases List.mem_append.mp hmem with hmem | hmem
        · exact h hmem
        · simp at hmem
      | ok allR =>
        cases env.graph with
        | error e =>
          intro hmem
          rcases List.mem_append.mp hmem with hmem | hmem
          · exact h hmem
          · simp at hmem
        | ok g =>
          intro hmem
          rcases List.mem_append.mp hmem with hmem | hmem
          · exact h hmem
          · simp at hmem

/-- C2 (amended): `generateReport` validates the minor-version range only
when at least one bound is defaulted (`-1`).  With both bounds explicit it
skips straight to the architecture lookup and data fetches — even when
oldest > newest — and never attempts the supported-range fetch; when a bound
is defaulted, the supported-range fetch happens FIRST, and only then are the
resolved bounds checked, aborting with the invalid-range error before the
release-map and graph fetches. -/
theorem generateReport_range_check_only_when_defaulted (env : FetchEnv)
    (aL bL uL o n : Int) (arch : String) :
    (o ≠ -1 → n ≠ -1 →
      generateReport env aL bL uL o n arch = generateReportFetch env aL bL uL o n arch []
      ∧ FetchKind.supportedReleases ∉ (generateReport env aL bL uL o n arch).2)
    ∧ (∀ os ns : Int, (o = -1 ∨ n = -1) → env.supported = Except.ok (os, ns) →
        ((if o = -1 then os else o) < 0 ∨ (if n = -1 then ns + 1 else n) < 0 ∨
          (if n = -1 then ns + 1 else n) < (if o = -1 then os else o)) →
        generateReport env aL bL uL o n arch =
          (GoResult.err (invalidRangeMsg (if o = -1 then os else o)
              (if n = -1 then ns + 1 else n)),
            [FetchKind.supportedReleases])) := by
  constructor
  · intro ho hn
    have hcond : ¬(o = -1 ∨ n = -1) := by
      rintro (h | h)
      · exact ho h
      · exact hn h
    have heq : generateReport env aL bL uL o n arch =
        generateReportFetch env aL bL uL o n arch [] := by
      unfold generateReport
      rw [if_neg hcond]
    refine ⟨heq, ?_⟩
    rw [heq]
    exact supported_not_mem_fetchTrace env aL bL uL o n arch [] (by simp)
  · intro os ns hdef hs hinv
    unfold generateReport
    rw [if_pos hdef, hs]
    simp only
    rw [if_pos hinv]

/-- C2 witness: with an explicit oldest bound 50 and a defaulted newest
bound, the supported-range fetch resolves newest to 1, the range is invalid,
and the error is returned after only the supported-range fetch. -/
theorem generateReport_range_check_witness :
    ((50 : Int) = -1 ∨ (-1 : Int) = -1)
    ∧ generateReport envExplicitBounds 86400 259200 259200 50 (-1) "amd64" =
      (GoResult.err (invalidRangeMsg 50 1), [FetchKind.supportedReleases]) := by
  refine ⟨Or.inr rfl, ?_⟩
  have h := (generateReport_range_check_only_when_defaulted envExplicitBounds
    86400 259200 259200 50 (-1) "amd64").2 0 0 (Or.inr rfl) rfl (by decide)
  simpa using h


/-- C8: a stream whose name fails the z-stream pattern or whose minor is
strictly outside `[oldestMinor, newestMinor]` appears in no evaluator
output (neither empty set, nor stale set, nor upgrade-report skeleton),
while a stream whose minor equals either bound (or lies inside) gets an
entry in the skeleton. -/
theorem out_of_range_streams_never_reported
    (graph releases : List (String × List String)) (th thU o n now : Int)
    (stream : String) :
    ((zMatch stream = none ∨ (∃ v, zMatch stream = some v ∧ ((v : Int) < o ∨ n < (v : Int)))) →
      stream ∉ (getEmptyAndStaleStreams releases th o n now).1
      ∧ stream ∉ ((getEmptyAndStaleStreams releases th o n now).2.map Prod.fst)
      ∧ stream ∉ ((checkUpgrades graph releases thU o n now).streams.map Prod.fst))
    ∧ (∀ (ps : List String) (v : Nat), (stream, ps) ∈ releases → zMatch stream = some v →
        o ≤ (v : Int) → (v : Int) ≤ n →
        stream ∈ ((checkUpgrades graph releases thU o n now).streams.map Prod.fst)) := by
  constructor
  · intro hout
    have hnr : ¬(inRangeZ o n stream).isSome := by
      intro hsome
      obtain ⟨v, hz, hlo, hhi⟩ := inRangeZ_isSome_iff.mp hsome
      rcases hout with hnone | ⟨v', hz', hrange⟩
      · rw [hz] at hnone
        cases hnone
      · rw [hz] at hz'
        obtain rfl := Option.some_inj.mp hz'
        rcases hrange with hr | hr
        · exact absurd hlo (not_le.mpr hr)
        · exact absurd hhi (not_le.mpr hr)
    refine ⟨?_, ?_, ?_⟩
    · rw [getEmptyAndStaleStreams_eq]
      intro hmem
      exact hnr (mem_emptySpec_iff.mp hmem).2
    · rw [getEmptyAndStaleStreams_eq]
      intro hmem
      obtain ⟨ps, _, hsome, _⟩ := mem_staleSpecKeys_iff.mp hmem
      exact hnr hsome
    · rw [checkUpgrades_streams_eq]
      intro hmem
      obtain ⟨ps, _, hsome⟩ := mem_streamsSpecKeys_iff.mp hmem
      exact hnr hsome
  · intro ps v hmem hz hlo hhi
    rw [checkUpgrades_streams_eq]
    exact mem_streamsSpecKeys_iff.mpr ⟨ps, hmem, inRangeZ_isSome_iff.mpr ⟨v, hz, hlo, hhi⟩⟩

/-- C8 witness: with range `[9, 12]`, the stream `4.5.0-0.ci` (minor 5,
below the range) is excluded from all three outputs, and a stream at the
lower boundary minor 9 is analyzed. -/
theorem out_of_range_streams_never_reported_witness :
    ((zMatch "4.5.0-0.ci" = none ∨
        (∃ v, zMatch "4.5.0-0.ci" = some v ∧ ((v : Int) < 9 ∨ 12 < (v : Int))))
      ∧ ("4.9.0-0.ci", ([] : List String)) ∈ [("4.5.0-0.ci", ([] : List String)), ("4.9.0-0.ci", [])]
      ∧ zMatch "4.9.0-0.ci" = some 9)
    ∧ ("4.5.0-0.ci" ∉ (getEmptyAndStaleStreams [("4.5.0-0.ci", []), ("4.9.0-0.ci", [])] 86400 9 12 0).1
      ∧ "4.5.0-0.ci" ∉ ((getEmptyAndStaleStreams [("4.5.0-0.ci", []), ("4.9.0-0.ci", [])] 86400 9 12 0).2.map Prod.fst)
      ∧ "4.5.0-0.ci" ∉ ((checkUpgrades [] [("4.5.0-0.ci", []), ("4.9.0-0.ci", [])] 259200 9 12 0).streams.map Prod.fst))
    ∧ "4.9.0-0.ci" ∈ ((checkUpgrades [] [("4.5.0-0.ci", []), ("4.9.0-0.ci", [])] 259200 9 12 0).streams.map Prod.fst) :=
  ⟨⟨Or.inr ⟨5, by decide, by decide⟩, by decide, by decide⟩,
    (out_of_range_streams_never_reported [] [("4.5.0-0.ci", []), ("4.9.0-0.ci", [])]
      86400 259200 9 12 0 "4.5.0-0.ci").1 (Or.inr ⟨5, by decide, by decide⟩),
    (out_of_range_streams_never_reported [] [("4.5.0-0.ci", []), ("4.9.0-0.ci", [])]
      86400 259200 9 12 0 "4.9.0-0.ci").2 [] 9 (by decide) (by decide) (by decide) (by decide)⟩


/-- C9: for a release map without duplicate keys, the staleness evaluator
partitions in-range streams: an empty in-range stream lands in the empty set
and never the stale set; an in-range stream with at least one fresh,
parseable payload lands in neither; and no stream is in both sets. -/
theorem staleness_evaluator_partitions
    (releases : List (String × List String)) (th o n now : Int)
    (hnd : (releases.map Prod.fst).Nodup)
    (stream : String) (ps : List String) (v : Nat)
    (hmem : (stream, ps) ∈ releases) (hz : zMatch stream = some v)
    (hlo : o ≤ (v : Int)) (hhi : (v : Int) ≤ n) :
    (ps = [] →
      stream ∈ (getEmptyAndStaleStreams releases th o n now).1
      ∧ stream ∉ ((getEmptyAndStaleStreams releases th o n now).2.map Prod.fst))
    ∧ ((∃ p ∈ ps, ∃ ts, getPayloadTimestamp p = some ts ∧ now - ts < th) →
      stream ∉ (getEmptyAndStaleStreams releases th o n now).1
      ∧ stream ∉ ((getEmptyAndStaleStreams releases th o n now).2.map Prod.fst))
    ∧ (∀ s, ¬(s ∈ (getEmptyAndStaleStreams releases th o n now).1
      ∧ s ∈ ((getEmptyAndStaleStreams releases th o n now).2.map Prod.fst))) := by
  have hin : (inRangeZ o n stream).isSome := inRangeZ_isSome_iff.mpr ⟨v, hz, hlo, hhi⟩
  refine ⟨?_, ?_, ?_⟩
  · intro hempty
    subst hempty
    constructor
    · rw [getEmptyAndStaleStreams_eq]
      exact mem_emptySpec_iff.mpr ⟨hmem, hin⟩
    · rw [getEmptyAndStaleStreams_eq]
      intro hst
      obtain ⟨ps', hmem', _, hne', _⟩ := mem_staleSpecKeys_iff.mp hst
      exact hne' (keyNodup_eq hnd hmem' hmem)
  · rintro ⟨p, hp, ts, hts, hlt⟩
    have hfreshp : payloadFresh now th p = true := by
      simp [payloadFresh, hts, hlt]
    have hany : ps.any (payloadFresh now th) = true :=
      List.any_eq_true.mpr ⟨p, hp, hfreshp⟩
    constructor
    · rw [getEmptyAndStaleStreams_eq]
      intro hmem'
      obtain ⟨hmem2, _⟩ := mem_emptySpec_iff.mp hmem'
      have : ([] : List String) = ps := keyNodup_eq hnd hmem2 hmem
      rw [← this] at hp
      cases hp
    · rw [getEmptyAndStaleStreams_eq]
      intro hst
      obtain ⟨ps', hmem', _, _, hfr⟩ := mem_staleSpecKeys_iff.mp hst
      have hps : ps' = ps := keyNodup_eq hnd hmem' hmem
      rw [hps] at hfr
      rw [streamFreshAndNewest_fst, hany] at hfr
      cases hfr
  · intro s hs
    obtain ⟨hse, hss⟩ := hs
    rw [getEmptyAndStaleStreams_eq] at hse hss
    obtain ⟨hmem1, _⟩ := mem_emptySpec_iff.mp hse
    obtain ⟨ps', hmem2, _, hne', _⟩ := mem_staleSpecKeys_iff.mp hss
    exact hne' (keyNodup_eq hnd hmem2 hmem1)

/-- C9 witness: on a two-stream map, the empty stream `4.9.0-0.ci` is in the
empty set only, and the stream with a fresh payload is in neither set. -/
theorem staleness_evaluator_partitions_witness :
    (([("4.9.0-0.ci", []), ("4.12.0-0.ci", ["4.12.10-2024-01-02-000000"])].map
        (Prod.fst (β := List String))).Nodup
      ∧ ("4.9.0-0.ci", ([] : List String)) ∈
          [("4.9.0-0.ci", []), ("4.12.0-0.ci", ["4.12.10-2024-01-02-000000"])]
      ∧ zMatch "4.9.0-0.ci" = some 9)
    ∧ ("4.9.0-0.ci" ∈ (getEmptyAndStaleStreams
          [("4.9.0-0.ci", []), ("4.12.0-0.ci", ["4.12.10-2024-01-02-000000"])]
          259200 9 12 cexNow).1
      ∧ "4.9.0-0.ci" ∉ ((getEmptyAndStaleStreams
          [("4.9.0-0.ci", []), ("4.12.0-0.ci", ["4.12.10-2024-01-02-000000"])]
          259200 9 12 cexNow).2.map Prod.fst))
    ∧ ("4.12.0-0.ci" ∉ (getEmptyAndStaleStreams
          [("4.9.0-0.ci", []), ("4.12.0-0.ci", ["4.12.10-2024-01-02-000000"])]
          259200 9 12 cexNow).1
      ∧ "4.12.0-0.ci" ∉ ((getEmptyAndStaleStreams
          [("4.9.0-0.ci", []), ("4.12.0-0.ci", ["4.12.10-2024-01-02-000000"])]
          259200 9 12 cexNow).2.map Prod.fst)) :=
  ⟨⟨by decide, by decide, by decide⟩,
    (staleness_evaluator_partitions
      [("4.9.0-0.ci", []), ("4.12.0-0.ci", ["4.12.10-2024-01-02-000000"])]
      259200 9 12 cexNow (by decide) "4.9.0-0.ci" [] 9 (by decide) (by decide)
      (by decide) (by decide)).1 rfl,
    (staleness_evaluator_partitions
      [("4.9.0-0.ci", []), ("4.12.0-0.ci", ["4.12.10-2024-01-02-000000"])]
      259200 9 12 cexNow (by decide) "4.12.0-0.ci" ["4.12.10-2024-01-02-000000"] 12
      (by decide) (by decide) (by decide) (by decide)).2.1
      ⟨"4.12.10-2024-01-02-000000", by decide,
        civilSecs 2024 1 2 0 0 0, by decide, by decide⟩⟩


/-- C10: the message-appending steps of `generateReport` dereference
`report.streams[stream]` for streams of the accepted-payload evaluation
without a presence check.  Under the precondition that every in-range
z-stream of the accepted map is also a key of the all-payloads map, no
dereference can hit a missing entry (the body never returns the nil-panic
outcome); without the precondition the nil dereference is reachable, as the
concrete second conjunct shows. -/
theorem merge_requires_accepted_subset_all :
    (∀ (graph acc allR : List (String × List String)) (aL bL uL o n now : Int)
        (url : String),
      (∀ s ∈ acc.map Prod.fst, (inRangeZ o n s).isSome → s ∈ allR.map Prod.fst) →
      generateReportBody graph acc allR aL bL uL o n url now ≠ GoResult.nilPanic)
    ∧ generateReportBody [] [("4.9.0-0.ci", [])] [] 86400 259200 259200 9 12 "u" 0 =
      GoResult.nilPanic := by
  constructor
  · intro graph acc allR aL bL uL o n now url hsub
    have hskel : ∀ s, s ∈ allR.map Prod.fst → (inRangeZ o n s).isSome →
        s ∈ ((checkUpgrades graph allR uL o n now).streams.map Prod.fst) := by
      intro s hsm hin
      obtain ⟨ps, hps⟩ := mem_map_fst_iff.mp hsm
      rw [checkUpgrades_streams_eq]
      exact mem_streamsSpecKeys_iff.mpr ⟨ps, hps, hin⟩
    have ht1 : ∀ s ∈ (getEmptyAndStaleStreams acc aL o n now).1,
        s ∈ ((checkUpgrades graph allR uL o n now).streams.map Prod.fst) := by
      intro s hs
      rw [getEmptyAndStaleStreams_eq] at hs
      obtain ⟨hm, hin⟩ := mem_emptySpec_iff.mp hs
      exact hskel s (hsub s (mem_map_fst_iff.mpr ⟨[], hm⟩) hin) hin
    have ht2 : ∀ e ∈ (getEmptyAndStaleStreams acc aL o n now).2,
        e.1 ∈ ((checkUpgrades graph allR uL o n now).streams.map Prod.fst) := by
      intro e he
      obtain ⟨sE, aE⟩ := e
      rw [getEmptyAndStaleStreams_eq] at he
      obtain ⟨ps, hm, hin, _, _, _⟩ := mem_staleSpec_iff.mp he
      exact hskel sE (hsub sE (mem_map_fst_iff.mpr ⟨ps, hm⟩) hin) hin
    have ht3 : ∀ s ∈ (getEmptyAndStaleStreams allR aL o n now).1,
        s ∈ ((checkUpgrades graph allR uL o n now).streams.map Prod.fst) := by
      intro s hs
      rw [getEmptyAndStaleStreams_eq] at hs
      obtain ⟨hm, hin⟩ := mem_emptySpec_iff.mp hs
      exact hskel s (mem_map_fst_iff.mpr ⟨[], hm⟩) hin
    have ht4 : ∀ e ∈ (getEmptyAndStaleStreams allR bL o n now).2,
        e.1 ∈ ((checkUpgrades graph allR uL o n now).streams.map Prod.fst) := by
      intro e he
      obtain ⟨sE, aE⟩ := e
      rw [getEmptyAndStaleStreams_eq] at he
      obtain ⟨ps, hm, hin, _, _, _⟩ := mem_staleSpec_iff.mp he
      exact hskel sE (mem_map_fst_iff.mpr ⟨ps, hm⟩) hin
    obtain ⟨s1, h1, k1⟩ := flagAcceptedEmpty_some
      (getEmptyAndStaleStreams allR aL o n now).2 (getEmptyAndStaleStreams allR aL o n now).1
      (getEmptyAndStaleStreams acc aL o n now).1
      (checkUpgrades graph allR uL o n now).streams ht1
    obtain ⟨s2, h2, k2⟩ := flagAcceptedStale_some aL
      (getEmptyAndStaleStreams acc aL o n now).2 s1
      (fun e he => k1 ▸ ht2 e he)
    obtain ⟨s3, h3, k3⟩ := flagAllEmpty_some
      (getEmptyAndStaleStreams allR aL o n now).1 s2
      (fun x hx => (k2.trans k1) ▸ ht3 x hx)
    obtain ⟨s4, h4, k4⟩ := flagVeryStale_some
      (getEmptyAndStaleStreams allR bL o n now).2 s3
      (fun e he => (k3.trans (k2.trans k1)) ▸ ht4 e he)
    intro hcontra
    simp only [generateReportBody] at hcontra
    rw [h1] at hcontra
    simp only at hcontra
    rw [h2] at hcontra
    simp only at hcontra
    rw [h3] at hcontra
    simp only at hcontra
    rw [h4] at hcontra
    simp only at hcontra
    exact GoResult.noConfusion hcontra
  · decide

/-- C10 witness: the subset part applied to a concrete accepted and
all-payloads map that do satisfy the precondition — no nil panic occurs. -/
theorem merge_requires_accepted_subset_all_witness :
    (∀ s ∈ ([("4.9.0-0.ci", ([] : List String))].map Prod.fst),
      (inRangeZ 9 12 s).isSome → s ∈ ([("4.9.0-0.ci", ([] : List String))].map Prod.fst))
    ∧ generateReportBody [] [("4.9.0-0.ci", [])] [("4.9.0-0.ci", [])]
        86400 259200 259200 9 12 "u" 0 ≠ GoResult.nilPanic :=
  ⟨fun _ hs _ => hs,
    merge_requires_accepted_subset_all.1 [] [("4.9.0-0.ci", [])] [("4.9.0-0.ci", [])]
      86400 259200 259200 9 12 0 "u" (fun _ hs _ => hs)⟩


theorem sorted_stringLeRel_pair {a b : String} (h : a.toList ≤ b.toList) :
    List.Sorted stringLeRel [a, b] := by
  rw [List.sorted_cons]
  refine ⟨?_, List.sorted_singleton b⟩
  intro c hc
  rw [List.mem_singleton] at hc
  subst hc
  exact String.le_iff_toList_le.mpr h

theorem perm_pairwise_eq {α : Type} {r : α → α → Prop} :
    ∀ {l1 l2 : List α}, l1.Perm l2 → l1.Pairwise r → l2.Pairwise r →
      (∀ a ∈ l1, ∀ b ∈ l1, r a b → r b a → a = b) → l1 = l2 := by
  intro l1
  induction l1 with
  | nil =>
    intro l2 hp _ _ _
    exact (hp.symm.eq_nil).symm
  | cons a t1 ih =>
    intro l2 hp h1 h2 hanti
    cases l2 with
    | nil => exact absurd hp.eq_nil (by simp)
    | cons b t2 =>
      by_cases hab : a = b
      · subst hab
        rw [List.pairwise_cons] at h1 h2
        rw [ih hp.cons_inv h1.2 h2.2
          (fun x hx y hy hr hr' => hanti x (List.mem_cons_of_mem _ hx)
            y (List.mem_cons_of_mem _ hy) hr hr')]
      · exfalso
        have ha2 : a ∈ b :: t2 := hp.mem_iff.mp (List.mem_cons_self a t1)
        have ha : a ∈ t2 := by
          rcases List.mem_cons.mp ha2 with h | h
          · exact absurd h hab
          · exact h
        have hb1 : b ∈ t1 := by
          have hb : b ∈ a :: t1 := hp.symm.mem_iff.mp (List.mem_cons_self b t2)
          rcases List.mem_cons.mp hb with h | h
          · exact absurd h.symm hab
          · exact h
        have rab : r a b := (List.pairwise_cons.mp h1).1 b hb1
        have rba : r b a := (List.pairwise_cons.mp h2).1 a ha
        exact hab (hanti a (List.mem_cons_self a t1) b
          (List.mem_cons_of_mem _ hb1) rab rba)

set_option maxRecDepth 4000 in
/-- C7 (counterexample): the sort the renderer relies on for stream order,
`sort.Slice`, is documented as not stable, and its contract does not
determine the relative order of two streams with the same parsed minor.
For the tied streams `4.9.0-0.ci` and `4.9.0-0.nightly`, BOTH orders are
admissible outcomes of the sort, and they render to different byte strings
(one of them also breaking the claimed string-order tie rule) — so
rendering identical contents is not guaranteed to be byte-identical, as the
claim states, on ties. -/
theorem reportString_tie_order_not_determined :
    sortStringsOutcome (repTie.streams.map Prod.fst)
      ["4.9.0-0.ci", "4.9.0-0.nightly"]
    ∧ sortSliceOutcome ["4.9.0-0.ci", "4.9.0-0.nightly"]
      ["4.9.0-0.ci", "4.9.0-0.nightly"]
    ∧ sortSliceOutcome ["4.9.0-0.ci", "4.9.0-0.nightly"]
      ["4.9.0-0.nightly", "4.9.0-0.ci"]
    ∧ reportStringWith repTie false ["4.9.0-0.ci", "4.9.0-0.nightly"] ≠
        reportStringWith repTie false ["4.9.0-0.nightly", "4.9.0-0.ci"] := by
  refine ⟨⟨by decide, sorted_stringLeRel_pair (by decide)⟩,
    ⟨by decide, by decide⟩, ⟨by decide, by decide⟩, by decide⟩

/-- C7 (amended): for reports whose stream names all carry a parsable minor
(otherwise the renderer comparator panics) and whose parsed minors are
pairwise distinct (no ties), rendering IS deterministic: byte-identical
across map iteration orders AND across every outcome the unstable
`sort.Slice` contract admits, and the streams appear in strictly descending
order of parsed minor.  With equal minors the tie order is not determined
by the sort contract, so the original tie-break-by-string-order clause does
not follow from the program. -/
theorem reportString_deterministic_on_distinct_minors (r1 r2 : Report) (b : Bool)
    (hperm : r1.streams.Perm r2.streams)
    (hnd : (r1.streams.map Prod.fst).Nodup)
    (ho : r1.oldestMinor = r2.oldestMinor) (hn : r1.newestMinor = r2.newestMinor)
    (hu : r1.releaseAPIUrl = r2.releaseAPIUrl)
    (hparse : ∀ s ∈ r1.streams.map Prod.fst, (extractMinor s).isSome)
    (hdistinct : (r1.streams.map Prod.fst).Pairwise
      (fun a c => extractMinor a ≠ extractMinor c))
    (s1 s2 out1 out2 : List String)
    (hs1 : sortStringsOutcome (r1.streams.map Prod.fst) s1)
    (hs2 : sortStringsOutcome (r2.streams.map Prod.fst) s2)
    (ho1 : sortSliceOutcome s1 out1)
    (ho2 : sortSliceOutcome s2 out2) :
    reportStringWith r1 b out1 = reportStringWith r2 b out2
    ∧ out1.Pairwise (fun a c => ∀ va vc, extractMinor a = some va →
        extractMinor c = some vc → vc < va) := by
  have hkp : (r1.streams.map Prod.fst).Perm (r2.streams.map Prod.fst) :=
    hperm.map Prod.fst
  have hs12 : s1 = s2 :=
    List.eq_of_perm_of_sorted (hs1.1.trans (hkp.trans hs2.1.symm)) hs1.2 hs2.2
  have hmem1 : ∀ x ∈ s1, x ∈ r1.streams.map Prod.fst := fun x hx => hs1.1.mem_iff.mp hx
  have hsym : Symmetric (fun a c : String => extractMinor a ≠ extractMinor c) :=
    fun x y h heq => h heq.symm
  have hdist' : ∀ a ∈ r1.streams.map Prod.fst, ∀ c ∈ r1.streams.map Prod.fst,
      a ≠ c → extractMinor a ≠ extractMinor c :=
    fun a ha c hc hne => hdistinct.forall hsym ha hc hne
  have hanti : ∀ a ∈ s1, ∀ c ∈ s1,
      minorDescLe a c = true → minorDescLe c a = true → a = c := by
    intro a ha c hc hac hca
    obtain ⟨va, hva⟩ := Option.isSome_iff_exists.mp (hparse a (hmem1 a ha))
    obtain ⟨vc, hvc⟩ := Option.isSome_iff_exists.mp (hparse c (hmem1 c hc))
    have h1 : vc ≤ va := by
      unfold minorDescLe at hac
      rw [hva, hvc] at hac
      exact of_decide_eq_true hac
    have h2 : va ≤ vc := by
      unfold minorDescLe at hca
      rw [hvc, hva] at hca
      exact of_decide_eq_true hca
    by_contra hne
    apply hdist' a (hmem1 a ha) c (hmem1 c hc) hne
    rw [hva, hvc, le_antisymm h2 h1]
  have hout12 : out1 = out2 :=
    perm_pairwise_eq (ho1.1.trans (hs12 ▸ ho2.1).symm) ho1.2 ho2.2
      (fun a ha c hc => hanti a (ho1.1.mem_iff.mp ha) c (ho1.1.mem_iff.mp hc))
  have hlk := lookup_eq_of_perm hperm hnd
  have hsb : streamBlock r1.streams r1.releaseAPIUrl b =
      streamBlock r2.streams r2.releaseAPIUrl b := by
    funext output stream
    unfold streamBlock
    rw [hlk stream, hu]
  constructor
  · unfold reportStringWith
    rw [hout12, hsb, ho, hn]
  · have hnout : out1.Nodup :=
      ((hs1.1.symm.trans ho1.1.symm).nodup hnd)
    refine (ho1.2.and hnout).imp_of_mem ?_
    intro a c ha hc hrc va vc hva hvc
    have hle : vc ≤ va := by
      have h := hrc.1
      unfold minorDescLe at h
      rw [hva, hvc] at h
      exact of_decide_eq_true h
    have hne : extractMinor a ≠ extractMinor c :=
      hdist' a (hmem1 a (ho1.1.mem_iff.mp ha)) c (hmem1 c (ho1.1.mem_iff.mp hc)) hrc.2
    rcases lt_or_eq_of_le hle with h | h
    · exact h
    · exfalso
      apply hne
      rw [hva, hvc, h]

/-- C7 witness: the amended determinism theorem applied to a concrete
report, a permutation of its entries (distinct minors 9 and 12), and the
unique admissible sort outcome. -/
theorem reportString_deterministic_on_distinct_minors_witness :
    (repPermA.streams.Perm repPermB.streams
      ∧ (repPermA.streams.map Prod.fst).Nodup
      ∧ (∀ s ∈ repPermA.streams.map Prod.fst, (extractMinor s).isSome)
      ∧ (repPermA.streams.map Prod.fst).Pairwise
          (fun a c => extractMinor a ≠ extractMinor c)
      ∧ sortStringsOutcome (repPermA.streams.map Prod.fst)
          ["4.12.0-0.ci", "4.9.0-0.ci"]
      ∧ sortStringsOutcome (repPermB.streams.map Prod.fst)
          ["4.12.0-0.ci", "4.9.0-0.ci"]
      ∧ sortSliceOutcome ["4.12.0-0.ci", "4.9.0-0.ci"]
          ["4.12.0-0.ci", "4.9.0-0.ci"])
    ∧ reportStringWith repPermA false ["4.12.0-0.ci", "4.9.0-0.ci"] =
        reportStringWith repPermB false ["4.12.0-0.ci", "4.9.0-0.ci"]
    ∧ (["4.12.0-0.ci", "4.9.0-0.ci"] : List String).Pairwise
        (fun a c => ∀ va vc, extractMinor a = some va →
          extractMinor c = some vc → vc < va) :=
  ⟨⟨List.Perm.swap _ _ _, by decide, by decide, by decide,
      ⟨by decide, sorted_stringLeRel_pair (by decide)⟩,
      ⟨by decide, sorted_stringLeRel_pair (by decide)⟩, ⟨by decide, by decide⟩⟩,
    (reportString_deterministic_on_distinct_minors repPermA repPermB false
      (List.Perm.swap _ _ _) (by decide) rfl rfl rfl (by decide) (by decide)
      ["4.12.0-0.ci", "4.9.0-0.ci"] ["4.12.0-0.ci", "4.9.0-0.ci"]
      ["4.12.0-0.ci", "4.9.0-0.ci"] ["4.12.0-0.ci", "4.9.0-0.ci"]
      ⟨by decide, sorted_stringLeRel_pair (by decide)⟩
      ⟨by decide, sorted_stringLeRel_pair (by decide)⟩
      ⟨by decide, by decide⟩ ⟨by decide, by decide⟩).1,
    (reportString_deterministic_on_distinct_minors repPermA repPermB false
      (List.Perm.swap _ _ _) (by decide) rfl rfl rfl (by decide) (by decide)
      ["4.12.0-0.ci", "4.9.0-0.ci"] ["4.12.0-0.ci", "4.9.0-0.ci"]
      ["4.12.0-0.ci", "4.9.0-0.ci"] ["4.12.0-0.ci", "4.9.0-0.ci"]
      ⟨by decide, sorted_stringLeRel_pair (by decide)⟩
      ⟨by decide, sorted_stringLeRel_pair (by decide)⟩
      ⟨by decide, by decide⟩ ⟨by decide, by decide⟩).2⟩

end ReleaseWatcher
